/-
Verification of the `modulo` congruence-class library.

This file gives a shallow embedding of the library's single class `modulo`
(file `src/modulo/modulo.py`, together with one method of the earlier
revision `modulo/modulo.py`) and proves the frozen specification claims
about it.  Python exceptions are modelled by the `Err` type, Python's
dynamically typed operands by `PyVal`, Python's `%` on integers by
`Int.fmod` (floor-style modulo) and Python's `//` by `Int.fdiv`
(floor-style division).
-/
import Mathlib

set_option linter.constructorNameAsVariable false

instance {ε α : Type} [DecidableEq ε] [DecidableEq α] : DecidableEq (Except ε α)
  | .ok a, .ok b => decidable_of_iff (a = b) (by simp)
  | .error a, .error b => decidable_of_iff (a = b) (by simp)
  | .ok _, .error _ => isFalse nofun
  | .error _, .ok _ => isFalse nofun

/-- Errors raised by the library: Python's `TypeError` and `ValueError`,
identified by their message. -/
inductive Err where
  | typeError (msg : String)
  | valueError (msg : String)
deriving DecidableEq, Repr

/-- An instance of the class `modulo`: the two attributes set by
`modulo.__init__`.  `residue = none` is Python's `self.residue = None`
(set mode); `residue = some r` is element mode. -/
structure modulo where
  residue : Option Int
  modulus : Int
deriving DecidableEq, Repr

/-- A dynamically typed Python operand: an `int`, a `modulo` instance, or
a value of any other type (e.g. the `float` and `str` arguments exercised
in the doctests). -/
inductive PyVal where
  | int (n : Int)
  | mcl (c : modulo)
  | other
deriving DecidableEq, Repr

/-- Fuel-driven extended Euclidean algorithm on naturals:
`xgcdFuel fuel a b = (g, x, y)` with `g = gcd a b` and `a*x + b*y = g`
whenever `a ≤ fuel`.  Structural recursion on the fuel keeps it
kernel-reducible. -/
def xgcdFuel : Nat → Nat → Nat → Nat × Int × Int
  | 0, _, b => (b, 0, 1)
  | fuel + 1, a, b =>
    if a = 0 then (b, 0, 1)
    else
      let p := xgcdFuel fuel (b % a) a
      (p.1, p.2.2 - p.2.1 * ((b / a : Nat) : Int), p.2.1)

/-- Modelled from the spec: the external `ExtendedGCD` collaborator (the
`egcd` package, §1/§6, not part of this repository).  `egcd b n` returns a
triple `(g, x, y)` with `g = gcd(b, n)` and `b*x + n*y = g`, which is
exactly the Bézout contract §6 states; the source uses only `g` and `x`. -/
def egcd (b n : Int) : Int × Int × Int :=
  let p := xgcdFuel (b.toNat + 1) b.toNat n.toNat
  ((p.1 : Int), p.2.1, p.2.2)

/-- Modelled from the spec: the native big-integer three-argument
`pow(base, exponent, modulus)` primitive that `modulo.__pow__` calls
(§4.3): for a nonnegative exponent it returns `base ^ exponent mod
modulus`; for a negative exponent it returns the inverse of `base` modulo
`modulus` (when the base is invertible) raised to the absolute value of
the exponent, and fails otherwise. -/
def pypow (b e m : Int) : Except Err Int :=
  if 0 ≤ e then .ok ((b ^ e.toNat).fmod m)
  else
    let t := egcd (b.fmod m) m
    if t.1 ≠ 1 then .error (.valueError "base is not invertible for the given modulus")
    else .ok (((t.2.1.fmod m) ^ e.natAbs).fmod m)

/-- Shallow embedding of `modulo.__init__` on the argument tuple `*args`. -/
def modulo.init (args : List PyVal) : Except Err modulo :=
  if args.length ≠ 1 ∧ args.length ≠ 2 then
    .error (.typeError "must provide either a modulus or an integer and a modulus")
  else
    match args.getLast? with
    | some (PyVal.int m) =>
      if m ≤ 0 then .error (.valueError "modulus must be a positive integer")
      else
        if args.length = 2 then
          match args.head? with
          | some (PyVal.int v) => .ok ⟨some (v.fmod m), m⟩
          | _ => .error (.valueError "residue must be an integer")
        else .ok ⟨none, m⟩
    | _ => .error (.valueError "modulus must be a positive integer")

/-- The constructor call `modulo(v, m)` with two integer arguments, as it
occurs throughout the source. -/
def modulo.mk2 (v m : Int) : Except Err modulo :=
  modulo.init [PyVal.int v, PyVal.int m]

/-- The constructor call `modulo(m)` with one integer argument. -/
def modulo.mk1 (m : Int) : Except Err modulo :=
  modulo.init [PyVal.int m]

/-- Shallow embedding of the coercion helper `modulo._cc`. -/
def modulo._cc (self : modulo) (arg : PyVal) : Except Err modulo :=
  match arg with
  | .mcl c =>
    match c.residue with
    | some _ =>
      if self.modulus = c.modulus then .ok c
      else .error (.valueError "congruence classes do not have the same modulus")
    | none => .error (.typeError "expecting a congruence class or integer")
  | .int n => modulo.mk2 n self.modulus
  | .other => .error (.typeError "expecting a congruence class or integer")

/-- Shallow embedding of `modulo.__add__`.  (`_cc` returns an element-mode
instance whenever it succeeds, so the Python attribute access
`other.residue` is rendered as `Option.getD _ 0`.) -/
def modulo.add (self : modulo) (other : PyVal) : Except Err modulo :=
  match self.residue with
  | none => .error (.typeError "expecting a congruence class or integer")
  | some r =>
    match self._cc other with
    | .error e => .error e
    | .ok o => modulo.mk2 ((r + o.residue.getD 0).fmod self.modulus) self.modulus

/-- Shallow embedding of `modulo.__radd__` (dispatched by Python for
`n + instance` when the left operand is an integer). -/
def modulo.radd (self : modulo) (other : PyVal) : Except Err modulo :=
  match self.residue with
  | none => modulo.init [other, PyVal.int self.modulus]
  | some r =>
    match self._cc other with
    | .error e => .error e
    | .ok o => modulo.mk2 ((r + o.residue.getD 0).fmod self.modulus) self.modulus

/-- Shallow embedding of `modulo.__sub__`. -/
def modulo.sub (self : modulo) (other : PyVal) : Except Err modulo :=
  match self.residue with
  | none => .error (.typeError "expecting a congruence class or integer")
  | some r =>
    match self._cc other with
    | .error e => .error e
    | .ok o => modulo.mk2 ((r - o.residue.getD 0).fmod self.modulus) self.modulus

/-- Shallow embedding of `modulo.__rsub__` (dispatched by Python for
`n - instance` when the left operand is an integer). -/
def modulo.rsub (self : modulo) (other : PyVal) : Except Err modulo :=
  match self.residue with
  | none => .error (.typeError "expecting a congruence class or integer")
  | some r =>
    match self._cc other with
    | .error e => .error e
    | .ok o => modulo.mk2 ((o.residue.getD 0 - r).fmod self.modulus) self.modulus

/-- Shallow embedding of `modulo.__pos__`. -/
def modulo.pos (self : modulo) : Except Err modulo :=
  match self.residue with
  | none => .error (.typeError "expecting a congruence class")
  | some r => modulo.mk2 r self.modulus

/-- Shallow embedding of `modulo.__neg__`. -/
def modulo.neg (self : modulo) : Except Err modulo :=
  match self.residue with
  | none => .error (.typeError "can only negate a congruence class")
  | some r => modulo.mk2 ((0 - r).fmod self.modulus) self.modulus

/-- Shallow embedding of `modulo.__mul__`. -/
def modulo.mul (self : modulo) (other : PyVal) : Except Err modulo :=
  match self.residue with
  | none => .error (.typeError "expecting a congruence class or integer")
  | some r =>
    match self._cc other with
    | .error e => .error e
    | .ok o => modulo.mk2 ((r * o.residue.getD 0).fmod self.modulus) self.modulus

/-- Shallow embedding of `modulo.__rmul__`. -/
def modulo.rmul (self : modulo) (other : PyVal) : Except Err modulo :=
  match self.residue with
  | none => .error (.typeError "expecting a congruence class or integer")
  | some r =>
    match self._cc other with
    | .error e => .error e
    | .ok o => modulo.mk2 ((r * o.residue.getD 0).fmod self.modulus) self.modulus

/-- Shallow embedding of `modulo.__floordiv__` (modular division via the
extended GCD of the divisor's residue and the modulus). -/
def modulo.floordiv (self : modulo) (other : PyVal) : Except Err modulo :=
  match self.residue with
  | none => .error (.typeError "expecting a congruence class or integer")
  | some r =>
    match self._cc other with
    | .error e => .error e
    | .ok o =>
      let t := egcd (o.residue.getD 0) self.modulus
      if 1 < t.1 then .error (.valueError "congruence class has no inverse")
      else modulo.mk2 ((r * t.2.1).fmod self.modulus) self.modulus

/-- Tests whether the optional third argument of `modulo.__pow__` is
present and differs from the instance's modulus. -/
def modArgMismatch (modArg : Option Int) (m : Int) : Bool :=
  match modArg with
  | some mm => mm != m
  | none => false

/-- Shallow embedding of `modulo.__pow__`.  The exponent may be an integer
or a `modulo` instance; `modArg` is the optional third argument of the
built-in `pow`. -/
def modulo.pow (self : modulo) (other : PyVal) (modArg : Option Int) : Except Err modulo :=
  match self.residue with
  | none => .error (.typeError "can only exponentiate a congruence class")
  | some r =>
    match other with
    | .other => .error (.typeError "exponent must be an integer or congruence class")
    | .int e =>
      if modArgMismatch modArg self.modulus then
        .error (.valueError "modulus does not match congruence class modulus")
      else if e < 0 then
        let t := egcd r self.modulus
        if 1 < t.1 then .error (.valueError "congruence class has no inverse")
        else
          match pypow (t.2.1.fmod self.modulus) (0 - e) self.modulus with
          | .error err => .error err
          | .ok w => modulo.mk2 w self.modulus
      else
        match pypow r e self.modulus with
        | .error err => .error err
        | .ok w => modulo.mk2 w self.modulus
    | .mcl c =>
      if modArgMismatch modArg self.modulus then
        .error (.valueError "modulus does not match congruence class modulus")
      else
        match c.residue with
        | none => .error (.typeError "can only convert a congruence class to an integer")
        | some e =>
          match pypow r e self.modulus with
          | .error err => .error err
          | .ok w => modulo.mk2 w self.modulus

/-- Shallow embedding of `modulo.__invert__`: defined as `self ** (-1)`. -/
def modulo.invert (self : modulo) : Except Err modulo :=
  self.pow (PyVal.int (-1)) none

/-- Shallow embedding of `modulo.__mod__` (modulus rebind). -/
def modulo.mod (self : modulo) (other : PyVal) : Except Err modulo :=
  match self.residue with
  | none => .error (.valueError "modulus cannot be modified for a set of congruence classes")
  | some r =>
    match other with
    | .int m2 => modulo.mk2 r m2
    | _ => .error (.typeError "right-hand argument must be an integer")

/-- Shallow embedding of `modulo.__rmod__` (`n % setInstance`). -/
def modulo.rmod (self : modulo) (other : PyVal) : Except Err modulo :=
  match self.residue with
  | some _ => .error (.valueError "expecting a set of congruence classes as the second argument")
  | none =>
    match other with
    | .int n => modulo.mk2 n self.modulus
    | _ => .error (.typeError "left-hand argument must be an integer")

/-- Shallow embedding of `modulo.__truediv__` (the scaled transform
`a / k`, dividing residue and modulus by a common divisor `k`). -/
def modulo.truediv (self : modulo) (other : PyVal) : Except Err modulo :=
  match self.residue with
  | none => .error (.valueError "can only transform a congruence class")
  | some r =>
    match other with
    | .int k =>
      if (Int.gcd r k : Int) ≠ k ∨ (Int.gcd self.modulus k : Int) ≠ k then
        .error (.valueError "residue and modulus must both be divisible by the supplied integer")
      else modulo.mk2 (r.fdiv k) (self.modulus.fdiv k)
    | _ => .error (.typeError "second argument must be an integer")

/-- Shallow embedding of `modulo.__int__`. -/
def modulo.int_ (self : modulo) : Except Err Int :=
  match self.residue with
  | none => .error (.typeError "can only convert a congruence class to an integer")
  | some r => .ok r

/-- Shallow embedding of `modulo.__and__` (CRT intersection).  `.ok none`
is the Python `return None` ("no intersection" sentinel). -/
def modulo.and (self : modulo) (other : PyVal) : Except Err (Option modulo) :=
  match other with
  | .mcl o =>
    match self.residue, o.residue with
    | some r1, some r2 =>
      let g : Int := Int.gcd self.modulus o.modulus
      let modulus := (self.modulus * o.modulus).fdiv g
      let r := r1.fmod g
      if r2.fmod g ≠ r then .ok none
      else
        match (modulo.mk2 o.modulus self.modulus).bind (fun c => c.truediv (PyVal.int g)) with
        | .error e => .error e
        | .ok other_mod =>
          match (modulo.mk2 self.modulus o.modulus).bind (fun c => c.truediv (PyVal.int g)) with
          | .error e => .error e
          | .ok self_mod =>
            match other_mod.invert.bind modulo.int_ with
            | .error e => .error e
            | .ok vo =>
              match self_mod.invert.bind modulo.int_ with
              | .error e => .error e
              | .ok vs =>
                match modulo.mk2
                    (r + g * ((((r1 - r).fdiv g) * (o.modulus.fdiv g) * vo) +
                              (((r2 - r).fdiv g) * (self.modulus.fdiv g) * vs)))
                    modulus with
                | .error e => .error e
                | .ok res => .ok (some res)
    | _, _ => .error (.valueError "intersection operation is only defined for two congruence classes")
  | _ => .error (.typeError "expecting a congruence class")

/-- Shallow embedding of `modulo.__contains__`. -/
def modulo.contains (self : modulo) (other : PyVal) : Except Err Bool :=
  match self.residue with
  | none =>
    match other with
    | .mcl c =>
      match c.residue with
      | none => .error (.typeError "can only check if a congruence class is a member")
      | some _ => .ok (decide (self.modulus = c.modulus))
    | _ => .error (.typeError "can only check if a congruence class is a member of a set of congruence classes")
  | some r =>
    match other with
    | .int n => .ok (decide (n.fmod self.modulus = r))
    | _ => .error (.typeError "can only check if an integer is a member of a congruence class")

/-- Shallow embedding of `modulo.issubset`. -/
def modulo.issubset (self : modulo) (other : PyVal) : Except Err Bool :=
  match other with
  | .mcl o =>
    match self.residue, o.residue with
    | some r, some s => .ok (decide (r.fmod o.modulus = s))
    | _, _ => .error (.valueError "subset relationship is only defined between congruence classes")
  | _ => .error (.typeError "expecting a congruence class")

/-- Shallow embedding of `modulo.__getitem__`. -/
def modulo.getitem (self : modulo) (index : PyVal) : Except Err PyVal :=
  match index with
  | .int i =>
    match self.residue with
    | none =>
      match modulo.mk2 i self.modulus with
      | .error e => .error e
      | .ok c => .ok (.mcl c)
    | some r => .ok (.int (r + i * self.modulus))
  | _ => .error (.typeError "index must be an integer")

/-- Shallow embedding of `modulo.__len__` in the current revision
(`src/modulo/modulo.py`): always returns the modulus. -/
def modulo.len (self : modulo) : Except Err Int :=
  .ok self.modulus

/-- Shallow embedding of `modulo.__len__` in the earlier revision
(`modulo/modulo.py`, attributes `val`/`mod` there): fails on element
mode. -/
def modulo.lenPrev (self : modulo) : Except Err Int :=
  match self.residue with
  | some _ => .error (.typeError "cannot determine size of a congruence class")
  | none => .ok self.modulus

/-- Shallow embedding of the set-mode branch of `modulo.__iter__`: the
finite sequence of constructor calls `modulo(c, self.modulus)` for `c` in
`range(self.modulus)`. -/
def modulo.iterSet (self : modulo) : List (Except Err modulo) :=
  (List.range self.modulus.toNat).map (fun c => modulo.mk2 (c : Int) self.modulus)

/-- Shallow embedding of the metaclass operator `_symbol.__rmul__`
(`n * Z`). -/
def symbolRmul (other : PyVal) : Except Err modulo :=
  match other with
  | .int n =>
    if n ≤ 0 then .error (.valueError "left-hand argument must be a positive integer")
    else modulo.mk2 0 n
  | _ => .error (.typeError "left-hand argument must be an integer")

/-- Shallow embedding of the metaclass operator `_symbol.__truediv__`
(`Z / (n * Z)`). -/
def symbolTruediv (other : PyVal) : Except Err modulo :=
  match other with
  | .mcl c =>
    if c.residue ≠ some 0 then
      .error (.valueError "right-hand argument must be a congruence class represented by 0")
    else modulo.mk1 c.modulus
  | _ => .error (.typeError "right-hand argument must be a congruence class")

/-- The data-model invariant of §3: positive modulus and, in element mode,
a residue normalized into `[0, modulus)`. -/
def modulo.wellFormed (self : modulo) : Prop :=
  0 < self.modulus ∧
    match self.residue with
    | none => True
    | some r => 0 ≤ r ∧ r < self.modulus

instance : (x : modulo) → Decidable x.wellFormed
  | ⟨none, m⟩ => decidable_of_iff (0 < m) (by simp [modulo.wellFormed])
  | ⟨some r, m⟩ => decidable_of_iff (0 < m ∧ 0 ≤ r ∧ r < m) (by simp [modulo.wellFormed])

/-- The infinite member set of an element-mode instance: exactly the
integers accepted by `modulo.__contains__`
(`other % self.modulus == self.residue`). -/
def modulo.members (self : modulo) : Set Int :=
  {n : Int | self.residue = some (n.fmod self.modulus)}

lemma fmod_bounds (v m : Int) (hm : 0 < m) : 0 ≤ v.fmod m ∧ v.fmod m < m := by
  rw [Int.fmod_eq_emod v (le_of_lt hm)]
  exact ⟨Int.emod_nonneg v (by omega), Int.emod_lt_of_pos v hm⟩

lemma xgcdFuel_spec (fuel : Nat) :
    ∀ a b : Nat, a ≤ fuel →
      (xgcdFuel fuel a b).1 = Nat.gcd a b ∧
      (a : Int) * (xgcdFuel fuel a b).2.1 + (b : Int) * (xgcdFuel fuel a b).2.2
        = (Nat.gcd a b : Int) := by
  induction fuel with
  | zero =>
    intro a b ha
    have h0 : a = 0 := Nat.le_zero.mp ha
    subst h0
    simp [xgcdFuel]
  | succ fuel ih =>
    intro a b ha
    by_cases h0 : a = 0
    · subst h0; simp [xgcdFuel]
    · have hmod : b % a ≤ fuel := by
        have := Nat.mod_lt b (Nat.pos_of_ne_zero h0)
        omega
      obtain ⟨ih1, ih2⟩ := ih (b % a) a hmod
      have hrec : Nat.gcd a b = Nat.gcd (b % a) a := Nat.gcd_rec a b
      have hcast : ((b % a : Nat) : Int) + (a : Int) * ((b / a : Nat) : Int) = (b : Int) := by
        exact_mod_cast Nat.mod_add_div b a
      constructor
      · simp only [xgcdFuel, if_neg h0]
        rw [hrec]; exact ih1
      · simp only [xgcdFuel, if_neg h0]
        rw [hrec]
        linear_combination ih2 - (xgcdFuel fuel (b % a) a).2.1 * hcast

lemma egcd_spec (b n : Int) (hb : 0 ≤ b) (hn : 0 ≤ n) :
    (egcd b n).1 = (Int.gcd b n : Int) ∧
    b * (egcd b n).2.1 + n * (egcd b n).2.2 = (Int.gcd b n : Int) := by
  obtain ⟨h1, h2⟩ := xgcdFuel_spec (b.toNat + 1) b.toNat n.toNat (by omega)
  have hbn : Int.gcd b n = Nat.gcd b.toNat n.toNat := by
    rw [Int.gcd_eq_natAbs]
    congr 1 <;> omega
  have hb' : ((b.toNat : Nat) : Int) = b := Int.toNat_of_nonneg hb
  have hn' : ((n.toNat : Nat) : Int) = n := Int.toNat_of_nonneg hn
  constructor
  · simp only [egcd]
    rw [h1, hbn]
  · simp only [egcd]
    rw [hbn, ← hb', ← hn']
    exact_mod_cast h2

lemma modulo.mk2_eq_ok (v m : Int) (hm : 0 < m) :
    modulo.mk2 v m = .ok ⟨some (v.fmod m), m⟩ := by
  have h : ¬ (m ≤ 0) := by omega
  simp [modulo.mk2, modulo.init, h]

lemma modulo.mk1_eq_ok (m : Int) (hm : 0 < m) :
    modulo.mk1 m = .ok ⟨none, m⟩ := by
  have h : ¬ (m ≤ 0) := by omega
  simp [modulo.mk1, modulo.init, h]

lemma modulo.wf_of_init (args : List PyVal) (c : modulo)
    (h : modulo.init args = .ok c) : c.wellFormed := by
  unfold modulo.init at h
  split at h
  · cases h
  · split at h
    · rename_i m _
      split at h
      · cases h
      · split at h
        · split at h
          · cases h
            rename_i hm _ _ _ _
            have hm' : 0 < m := by omega
            exact ⟨hm', (fmod_bounds _ m hm').1, (fmod_bounds _ m hm').2⟩
          · cases h
        · cases h
          rename_i hm _ _
          have hm' : 0 < m := by omega
          exact ⟨hm', trivial⟩
    · cases h

lemma modulo.wf_of_mk2 (v m : Int) (c : modulo)
    (h : modulo.mk2 v m = .ok c) : c.wellFormed :=
  modulo.wf_of_init _ _ h

lemma modulo.wf_of_add (a : modulo) (b : PyVal) (c : modulo)
    (h : a.add b = .ok c) : c.wellFormed := by
  unfold modulo.add at h
  repeat' split at h
  all_goals first
    | cases h
    | exact modulo.wf_of_mk2 _ _ _ h

lemma modulo.wf_of_radd (a : modulo) (b : PyVal) (c : modulo)
    (h : a.radd b = .ok c) : c.wellFormed := by
  unfold modulo.radd at h
  repeat' split at h
  all_goals first
    | cases h
    | exact modulo.wf_of_mk2 _ _ _ h
    | exact modulo.wf_of_init _ _ h

lemma modulo.wf_of_sub (a : modulo) (b : PyVal) (c : modulo)
    (h : a.sub b = .ok c) : c.wellFormed := by
  unfold modulo.sub at h
  repeat' split at h
  all_goals first
    | cases h
    | exact modulo.wf_of_mk2 _ _ _ h

lemma modulo.wf_of_rsub (a : modulo) (b : PyVal) (c : modulo)
    (h : a.rsub b = .ok c) : c.wellFormed := by
  unfold modulo.rsub at h
  repeat' split at h
  all_goals first
    | cases h
    | exact modulo.wf_of_mk2 _ _ _ h

lemma modulo.wf_of_pos (a : modulo) (c : modulo)
    (h : a.pos = .ok c) : c.wellFormed := by
  unfold modulo.pos at h
  repeat' split at h
  all_goals first
    | cases h
    | exact modulo.wf_of_mk2 _ _ _ h

lemma modulo.wf_of_neg (a : modulo) (c : modulo)
    (h : a.neg = .ok c) : c.wellFormed := by
  unfold modulo.neg at h
  repeat' split at h
  all_goals first
    | cases h
    | exact modulo.wf_of_mk2 _ _ _ h

lemma modulo.wf_of_mul (a : modulo) (b : PyVal) (c : modulo)
    (h : a.mul b = .ok c) : c.wellFormed := by
  unfold modulo.mul at h
  repeat' split at h
  all_goals first
    | cases h
    | exact modulo.wf_of_mk2 _ _ _ h

lemma modulo.wf_of_rmul (a : modulo) (b : PyVal) (c : modulo)
    (h : a.rmul b = .ok c) : c.wellFormed := by
  unfold modulo.rmul at h
  repeat' split at h
  all_goals first
    | cases h
    | exact modulo.wf_of_mk2 _ _ _ h

lemma modulo.wf_of_floordiv (a : modulo) (b : PyVal) (c : modulo)
    (h : a.floordiv b = .ok c) : c.wellFormed := by
  unfold modulo.floordiv at h
  repeat' first
    | split at h
    | simp only [] at h
  all_goals first
    | cases h
    | exact modulo.wf_of_mk2 _ _ _ h

lemma modulo.wf_of_pow (a : modulo) (b : PyVal) (oi : Option Int) (c : modulo)
    (h : a.pow b oi = .ok c) : c.wellFormed := by
  unfold modulo.pow at h
  repeat' first
    | split at h
    | simp only [] at h
  all_goals first
    | cases h
    | exact modulo.wf_of_mk2 _ _ _ h

lemma modulo.wf_of_invert (a : modulo) (c : modulo)
    (h : a.invert = .ok c) : c.wellFormed :=
  modulo.wf_of_pow a (PyVal.int (-1)) none c h

lemma modulo.wf_of_mod (a : modulo) (b : PyVal) (c : modulo)
    (h : a.mod b = .ok c) : c.wellFormed := by
  unfold modulo.mod at h
  repeat' split at h
  all_goals first
    | cases h
    | exact modulo.wf_of_mk2 _ _ _ h

lemma modulo.wf_of_rmod (a : modulo) (b : PyVal) (c : modulo)
    (h : a.rmod b = .ok c) : c.wellFormed := by
  unfold modulo.rmod at h
  repeat' split at h
  all_goals first
    | cases h
    | exact modulo.wf_of_mk2 _ _ _ h

lemma modulo.wf_of_truediv (a : modulo) (b : PyVal) (c : modulo)
    (h : a.truediv b = .ok c) : c.wellFormed := by
  unfold modulo.truediv at h
  repeat' split at h
  all_goals first
    | cases h
    | exact modulo.wf_of_mk2 _ _ _ h

lemma modulo.wf_of_and (a : modulo) (b : PyVal) (c : modulo)
    (h : a.and b = .ok (some c)) : c.wellFormed := by
  unfold modulo.and at h
  repeat' first
    | split at h
    | simp only [] at h
  all_goals try cases h
  all_goals rename_i heq
  all_goals exact modulo.wf_of_mk2 _ _ _ heq

lemma modulo.wf_of_getitem (a : modulo) (b : PyVal) (c : modulo)
    (h : a.getitem b = .ok (.mcl c)) : c.wellFormed := by
  unfold modulo.getitem at h
  repeat' split at h
  all_goals try cases h
  all_goals rename_i heq
  all_goals exact modulo.wf_of_mk2 _ _ _ heq

lemma wf_of_symbolRmul (b : PyVal) (c : modulo)
    (h : symbolRmul b = .ok c) : c.wellFormed := by
  unfold symbolRmul at h
  repeat' split at h
  all_goals first
    | cases h
    | exact modulo.wf_of_mk2 _ _ _ h

lemma wf_of_symbolTruediv (b : PyVal) (c : modulo)
    (h : symbolTruediv b = .ok c) : c.wellFormed := by
  unfold symbolTruediv at h
  repeat' split at h
  all_goals first
    | cases h
    | exact modulo.wf_of_init _ _ h

lemma modulo.wf_of_iterSet (a : modulo) (e : Except Err modulo) (c : modulo)
    (he : e ∈ a.iterSet) (h : e = .ok c) : c.wellFormed := by
  subst h
  simp only [modulo.iterSet, List.mem_map] at he
  obtain ⟨k, _, hk⟩ := he
  exact modulo.wf_of_mk2 _ _ _ hk

lemma fmod_modEq (v m : Int) (hm : 0 ≤ m) : v.fmod m ≡ v [ZMOD m] := by
  show (v.fmod m) % m = v % m
  rw [Int.fmod_eq_emod v hm]
  exact Int.emod_emod_of_dvd v dvd_rfl

lemma fmod_fmod_self (a m : Int) (hm : 0 < m) : (a.fmod m).fmod m = a.fmod m := by
  rw [Int.fmod_eq_emod _ (le_of_lt hm), Int.fmod_eq_emod _ (le_of_lt hm)]
  exact Int.emod_emod_of_dvd a dvd_rfl

lemma int_gcd_add_mul (a b k : Int) : Int.gcd (a + b * k) b = Int.gcd a b := by
  apply Nat.dvd_antisymm
  · have h1 : (↑(Int.gcd (a + b * k) b) : Int) ∣ a := by
      have hd : (↑(Int.gcd (a + b * k) b) : Int) ∣ (a + b * k) - b * k :=
        dvd_sub Int.gcd_dvd_left (Dvd.dvd.mul_right Int.gcd_dvd_right k)
      simpa using hd
    exact_mod_cast Int.dvd_gcd h1 Int.gcd_dvd_right
  · have h1 : (↑(Int.gcd a b) : Int) ∣ a + b * k :=
      dvd_add Int.gcd_dvd_left (Dvd.dvd.mul_right Int.gcd_dvd_right k)
    exact_mod_cast Int.dvd_gcd h1 Int.gcd_dvd_right

lemma int_gcd_fmod (a n : Int) (hn : 0 < n) : Int.gcd (a.fmod n) n = Int.gcd a n := by
  rw [Int.fmod_eq_emod a (le_of_lt hn), Int.emod_def]
  have h : a - n * (a / n) = a + n * (-(a / n)) := by ring
  rw [h, int_gcd_add_mul]

lemma fdiv_pos_of_dvd (m k : Int) (hm : 0 < m) (hk : 0 < k) (hkm : k ∣ m) :
    0 < m.fdiv k := by
  rw [Int.fdiv_eq_ediv _ (le_of_lt hk)]
  have hle : k ≤ m := Int.le_of_dvd hm hkm
  have h1 : (1 : Int) ≤ m / k := (Int.le_ediv_iff_mul_le hk).mpr (by omega)
  omega

lemma modulo.truediv_eq_ok (r m k : Int) (hm : 0 < m) (hk : 0 < k)
    (hkr : k ∣ r) (hkm : k ∣ m) :
    modulo.truediv ⟨some r, m⟩ (PyVal.int k)
      = .ok ⟨some ((r.fdiv k).fmod (m.fdiv k)), m.fdiv k⟩ := by
  have hkk : (k.natAbs : Int) = k := Int.natAbs_of_nonneg (le_of_lt hk)
  have h1 : (Int.gcd r k : Int) = k := by rw [Int.gcd_eq_right hkr]; exact hkk
  have h2 : (Int.gcd m k : Int) = k := by rw [Int.gcd_eq_right hkm]; exact hkk
  have hcond : ¬ ((Int.gcd r k : Int) ≠ k ∨ (Int.gcd m k : Int) ≠ k) := by
    push_neg
    exact ⟨h1, h2⟩
  simp only [modulo.truediv]
  rw [if_neg hcond]
  exact modulo.mk2_eq_ok _ _ (fdiv_pos_of_dvd m k hm hk hkm)

lemma modulo.invert_eq_ok (r m : Int) (hm : 0 < m) (hr : 0 ≤ r)
    (hg : Int.gcd r m = 1) :
    ∃ v : Int, modulo.invert ⟨some r, m⟩ = .ok ⟨some v, m⟩ ∧
      0 ≤ v ∧ v < m ∧ r * v ≡ 1 [ZMOD m] := by
  obtain ⟨hg1, hbez⟩ := egcd_spec r m hr (le_of_lt hm)
  have ht1 : (egcd r m).1 = 1 := by rw [hg1, hg]; rfl
  have heval : modulo.invert ⟨some r, m⟩ = modulo.mk2 ((egcd r m).2.1.fmod m) m := by
    unfold modulo.invert modulo.pow pypow
    norm_num [modArgMismatch, ht1, fmod_fmod_self _ _ hm]
  have hmodeq : r * ((egcd r m).2.1.fmod m) ≡ 1 [ZMOD m] := by
    have h1 : r * ((egcd r m).2.1.fmod m) ≡ r * (egcd r m).2.1 [ZMOD m] :=
      Int.ModEq.mul_left r (fmod_modEq _ _ (le_of_lt hm))
    have h2 : r * (egcd r m).2.1 ≡ 1 [ZMOD m] := by
      rw [Int.modEq_iff_dvd]
      refine ⟨(egcd r m).2.2, ?_⟩
      rw [hg] at hbez
      push_cast at hbez
      linarith
    exact h1.trans h2
  refine ⟨(egcd r m).2.1.fmod m, ?_, (fmod_bounds _ _ hm).1, (fmod_bounds _ _ hm).2, hmodeq⟩
  rw [heval, modulo.mk2_eq_ok _ _ hm, fmod_fmod_self _ _ hm]

lemma modulo.mul_mcl_eq_ok (r s m : Int) (hm : 0 < m) :
    modulo.mul ⟨some r, m⟩ (.mcl ⟨some s, m⟩) = .ok ⟨some ((r * s).fmod m), m⟩ := by
  unfold modulo.mul modulo._cc
  simp [modulo.mk2_eq_ok _ _ hm, fmod_fmod_self _ _ hm]

lemma modulo.floordiv_mcl_noninv (r s m : Int) (hm : 0 < m) (hs : 0 ≤ s)
    (hg : 1 < Int.gcd s m) :
    modulo.floordiv ⟨some r, m⟩ (.mcl ⟨some s, m⟩)
      = .error (.valueError "congruence class has no inverse") := by
  obtain ⟨hg1, _⟩ := egcd_spec s m hs (le_of_lt hm)
  have ht1 : 1 < (egcd s m).1 := by rw [hg1]; exact_mod_cast hg
  unfold modulo.floordiv modulo._cc
  simp [ht1]

lemma modulo.floordiv_mcl_ok (r s m : Int) (hm : 0 < m) (hs : 0 ≤ s)
    (hg : Int.gcd s m = 1) :
    modulo.floordiv ⟨some r, m⟩ (.mcl ⟨some s, m⟩)
      = .ok ⟨some ((r * (egcd s m).2.1).fmod m), m⟩ ∧
    s * (egcd s m).2.1 ≡ 1 [ZMOD m] := by
  obtain ⟨hg1, hbez⟩ := egcd_spec s m hs (le_of_lt hm)
  have ht1 : ¬ (1 < (egcd s m).1) := by rw [hg1, hg]; norm_num
  constructor
  · unfold modulo.floordiv modulo._cc
    simp [ht1, modulo.mk2_eq_ok _ _ hm, fmod_fmod_self _ _ hm]
  · rw [Int.modEq_iff_dvd]
    refine ⟨(egcd s m).2.2, ?_⟩
    rw [hg] at hbez
    push_cast at hbez
    linarith

lemma modulo.pow_nonneg_eq (r m e : Int) (hm : 0 < m) (he : 0 ≤ e) :
    modulo.pow ⟨some r, m⟩ (.int e) none = .ok ⟨some ((r ^ e.toNat).fmod m), m⟩ := by
  have he2 : ¬ e < 0 := by omega
  unfold modulo.pow pypow
  norm_num [modArgMismatch, he, he2, modulo.mk2_eq_ok _ _ hm, fmod_fmod_self _ _ hm]

lemma modulo.pow_neg_eq (r m e : Int) (hm : 0 < m) (hr : 0 ≤ r) (he : e < 0)
    (hg : Int.gcd r m = 1) :
    modulo.pow ⟨some r, m⟩ (.int e) none
      = .ok ⟨some ((((egcd r m).2.1.fmod m) ^ e.natAbs).fmod m), m⟩ := by
  obtain ⟨hg1, _⟩ := egcd_spec r m hr (le_of_lt hm)
  have ht1 : ¬ (1 < (egcd r m).1) := by rw [hg1, hg]; norm_num
  have htn : (0 - e).toNat = e.natAbs := by omega
  have h0e : (0 : Int) ≤ 0 - e := by omega
  unfold modulo.pow pypow
  norm_num [modArgMismatch, he, ht1, h0e, htn, modulo.mk2_eq_ok _ _ hm,
    fmod_fmod_self _ _ hm, show e ≤ 0 from by omega,
    show (-e).toNat = e.natAbs from by omega]

lemma modulo.pow_neg_noninv (r m e : Int) (hm : 0 < m) (hr : 0 ≤ r) (he : e < 0)
    (hg : 1 < Int.gcd r m) :
    modulo.pow ⟨some r, m⟩ (.int e) none
      = .error (.valueError "congruence class has no inverse") := by
  obtain ⟨hg1, _⟩ := egcd_spec r m hr (le_of_lt hm)
  have ht1 : 1 < (egcd r m).1 := by rw [hg1]; exact_mod_cast hg
  unfold modulo.pow
  norm_num [modArgMismatch, he, ht1]

lemma mul_fdiv_of_dvd (g m : Int) (hg : 0 < g) (h : g ∣ m) :
    g * (m.fdiv g) = m := by
  rw [Int.fdiv_eq_ediv _ (le_of_lt hg)]
  exact Int.mul_ediv_cancel' h

lemma coprime_fdiv_gcd (mA mB : Int) (hA : 0 < mA) (hB : 0 < mB) :
    Int.gcd (mB.fdiv (Int.gcd mA mB : Int)) (mA.fdiv (Int.gcd mA mB : Int)) = 1 := by
  obtain ⟨nA, hnA⟩ := (Int.gcd_dvd_left : ((Int.gcd mA mB : Int)) ∣ mA)
  obtain ⟨nB, hnB⟩ := (Int.gcd_dvd_right : ((Int.gcd mA mB : Int)) ∣ mB)
  have hgposN : 0 < Int.gcd mA mB := Int.gcd_pos_iff.mpr (Or.inl (by omega))
  have hgpos : (0:Int) < (Int.gcd mA mB : Int) := by exact_mod_cast hgposN
  have h1 : mB.fdiv (Int.gcd mA mB : Int) = nB := by
    nth_rewrite 1 [hnB]
    rw [Int.mul_fdiv_cancel_left _ (by omega)]
  have h2 : mA.fdiv (Int.gcd mA mB : Int) = nA := by
    nth_rewrite 1 [hnA]
    rw [Int.mul_fdiv_cancel_left _ (by omega)]
  rw [h1, h2]
  have hmul : Int.gcd ((Int.gcd mA mB : Int) * nB) ((Int.gcd mA mB : Int) * nA)
      = (Int.gcd mA mB) * Int.gcd nB nA := by
    rw [Int.gcd_mul_left]
    simp
  rw [← hnB, ← hnA] at hmul
  have hcomm : Int.gcd mB mA = Int.gcd mA mB := Int.gcd_comm mB mA
  rw [hcomm] at hmul
  have : Int.gcd mA mB * 1 = Int.gcd mA mB * Int.gcd nB nA := by omega
  exact (Nat.eq_of_mul_eq_mul_left hgposN this).symm

lemma fmod_fdiv_expand (mA mB g : Int) (hA : 0 < mA) (hg : 0 < g)
    (hgA : g ∣ mA) (hgB : g ∣ mB) :
    (mB.fmod mA).fdiv g = mB.fdiv g + (mA.fdiv g) * (-(mB / mA)) := by
  obtain ⟨nA, hnA⟩ := hgA
  obtain ⟨nB, hnB⟩ := hgB
  subst hnA hnB
  rw [Int.fmod_eq_emod _ (le_of_lt hA), Int.emod_def]
  rw [show g * nB - g * nA * ((g * nB) / (g * nA))
      = g * (nB - nA * ((g * nB) / (g * nA))) from by ring]
  rw [Int.mul_fdiv_cancel_left _ (by omega), Int.mul_fdiv_cancel_left _ (by omega),
    Int.mul_fdiv_cancel_left _ (by omega)]
  ring

lemma crt_aux (mA mB : Int) (hA : 0 < mA) (hB : 0 < mB) :
    (Int.gcd mA mB : Int) ∣ mB.fmod mA ∧
    Int.gcd (((mB.fmod mA).fdiv (Int.gcd mA mB : Int)).fmod (mA.fdiv (Int.gcd mA mB : Int)))
      (mA.fdiv (Int.gcd mA mB : Int)) = 1 ∧
    ((mB.fmod mA).fdiv (Int.gcd mA mB : Int)).fmod (mA.fdiv (Int.gcd mA mB : Int))
      ≡ mB.fdiv (Int.gcd mA mB : Int) [ZMOD mA.fdiv (Int.gcd mA mB : Int)] := by
  have hgposN : 0 < Int.gcd mA mB := Int.gcd_pos_iff.mpr (Or.inl (by omega))
  have hgpos : (0:Int) < (Int.gcd mA mB : Int) := by exact_mod_cast hgposN
  have hgA : ((Int.gcd mA mB : Int)) ∣ mA := Int.gcd_dvd_left
  have hgB : ((Int.gcd mA mB : Int)) ∣ mB := Int.gcd_dvd_right
  have hnApos : 0 < mA.fdiv (Int.gcd mA mB : Int) := fdiv_pos_of_dvd _ _ hA hgpos hgA
  have hdvd : (Int.gcd mA mB : Int) ∣ mB.fmod mA := by
    rw [Int.fmod_eq_emod _ (le_of_lt hA), Int.emod_def]
    exact dvd_sub hgB (Dvd.dvd.mul_right hgA _)
  have hxeq : (mB.fmod mA).fdiv (Int.gcd mA mB : Int)
      = mB.fdiv (Int.gcd mA mB : Int)
        + (mA.fdiv (Int.gcd mA mB : Int)) * (-(mB / mA)) :=
    fmod_fdiv_expand mA mB (Int.gcd mA mB : Int) hA hgpos hgA hgB
  refine ⟨hdvd, ?_, ?_⟩
  · rw [int_gcd_fmod _ _ hnApos, hxeq, int_gcd_add_mul]
    exact coprime_fdiv_gcd mA mB hA hB
  · have h1 : ((mB.fmod mA).fdiv (Int.gcd mA mB : Int)).fmod (mA.fdiv (Int.gcd mA mB : Int))
        ≡ (mB.fmod mA).fdiv (Int.gcd mA mB : Int) [ZMOD mA.fdiv (Int.gcd mA mB : Int)] :=
      fmod_modEq _ _ (le_of_lt hnApos)
    have h2 : (mB.fmod mA).fdiv (Int.gcd mA mB : Int)
        ≡ mB.fdiv (Int.gcd mA mB : Int) [ZMOD mA.fdiv (Int.gcd mA mB : Int)] :=
      Int.modEq_iff_dvd.mpr ⟨mB / mA, by rw [hxeq]; ring⟩
    exact h1.trans h2

lemma fdiv_gcd_eq_lcm (m1 m2 : Int) (h1 : 0 < m1) (h2 : 0 < m2) :
    (m1 * m2).fdiv (Int.gcd m1 m2 : Int) = (Int.lcm m1 m2 : Int) := by
  have hgposN : 0 < Int.gcd m1 m2 := Int.gcd_pos_iff.mpr (Or.inl (by omega))
  have hmul : ((Int.gcd m1 m2 : Int)) * (Int.lcm m1 m2 : Int) = m1 * m2 := by
    have hh := Int.gcd_mul_lcm m1 m2
    have habs : (((m1 * m2).natAbs : Nat) : Int) = m1 * m2 :=
      Int.natAbs_of_nonneg (by positivity)
    rw [← habs]
    exact_mod_cast congrArg (fun n : Nat => (n : Int)) hh
  have hgne : ((Int.gcd m1 m2 : Int)) ≠ 0 := by
    have hp : (0:Int) < (Int.gcd m1 m2 : Int) := by exact_mod_cast hgposN
    omega
  rw [← hmul, Int.mul_fdiv_cancel_left _ hgne]

lemma fmod_eq_iff_modEq (n r m : Int) (hm : 0 < m) (hr0 : 0 ≤ r) (hrm : r < m) :
    r = n.fmod m ↔ n ≡ r [ZMOD m] := by
  rw [Int.fmod_eq_emod _ (le_of_lt hm)]
  show r = n % m ↔ n % m = r % m
  rw [Int.emod_eq_of_lt hr0 hrm]
  exact eq_comm

lemma dvd_fdiv_gcd_left (m1 m2 : Int) (h1 : 0 < m1) (h2 : 0 < m2) :
    m1 ∣ (m1 * m2).fdiv (Int.gcd m1 m2 : Int) := by
  have hgpos : (0:Int) < (Int.gcd m1 m2 : Int) := by
    exact_mod_cast Int.gcd_pos_iff.mpr (Or.inl (show m1 ≠ 0 from by omega))
  obtain ⟨n2, hn2⟩ := (Int.gcd_dvd_right : ((Int.gcd m1 m2 : Int)) ∣ m2)
  refine ⟨n2, ?_⟩
  nth_rewrite 1 [hn2]
  rw [show m1 * ((Int.gcd m1 m2 : Int) * n2) = (Int.gcd m1 m2 : Int) * (m1 * n2) from by ring,
    Int.mul_fdiv_cancel_left _ (by omega)]

lemma dvd_fdiv_gcd_right (m1 m2 : Int) (h1 : 0 < m1) (h2 : 0 < m2) :
    m2 ∣ (m1 * m2).fdiv (Int.gcd m1 m2 : Int) := by
  have hgpos : (0:Int) < (Int.gcd m1 m2 : Int) := by
    exact_mod_cast Int.gcd_pos_iff.mpr (Or.inl (show m1 ≠ 0 from by omega))
  obtain ⟨n1, hn1⟩ := (Int.gcd_dvd_left : ((Int.gcd m1 m2 : Int)) ∣ m1)
  refine ⟨n1, ?_⟩
  nth_rewrite 1 [hn1]
  rw [show (Int.gcd m1 m2 : Int) * n1 * m2 = (Int.gcd m1 m2 : Int) * (m2 * n1) from by ring,
    Int.mul_fdiv_cancel_left _ (by omega)]

lemma modulo.and_incompat (r1 m1 r2 m2 : Int)
    (hne : r2.fmod (Int.gcd m1 m2 : Int) ≠ r1.fmod (Int.gcd m1 m2 : Int)) :
    modulo.and ⟨some r1, m1⟩ (.mcl ⟨some r2, m2⟩) = .ok none := by
  simp only [modulo.and]
  rw [if_pos hne]

lemma modulo.and_compat_spec (r1 m1 r2 m2 : Int)
    (hm1 : 0 < m1) (hm2 : 0 < m2) (hr1 : 0 ≤ r1) (hr1m : r1 < m1)
    (hr2 : 0 ≤ r2) (hr2m : r2 < m2)
    (hc : r2.fmod (Int.gcd m1 m2 : Int) = r1.fmod (Int.gcd m1 m2 : Int)) :
    ∃ ρ : Int,
      modulo.and ⟨some r1, m1⟩ (.mcl ⟨some r2, m2⟩)
        = .ok (some ⟨some ρ, (m1 * m2).fdiv (Int.gcd m1 m2 : Int)⟩) ∧
      0 ≤ ρ ∧ ρ < (m1 * m2).fdiv (Int.gcd m1 m2 : Int) ∧
      ρ ≡ r1 [ZMOD m1] ∧ ρ ≡ r2 [ZMOD m2] := by
  have hgposN : 0 < Int.gcd m1 m2 := Int.gcd_pos_iff.mpr (Or.inl (by omega))
  have hgpos : (0:Int) < (Int.gcd m1 m2 : Int) := by exact_mod_cast hgposN
  have hgm1 : ((Int.gcd m1 m2 : Int)) ∣ m1 := Int.gcd_dvd_left
  have hgm2 : ((Int.gcd m1 m2 : Int)) ∣ m2 := Int.gcd_dvd_right
  have hn1pos : 0 < m1.fdiv (Int.gcd m1 m2 : Int) := fdiv_pos_of_dvd _ _ hm1 hgpos hgm1
  have hn2pos : 0 < m2.fdiv (Int.gcd m1 m2 : Int) := fdiv_pos_of_dvd _ _ hm2 hgpos hgm2
  have hMpos : 0 < (m1 * m2).fdiv (Int.gcd m1 m2 : Int) :=
    fdiv_pos_of_dvd _ _ (by positivity) hgpos (Dvd.dvd.mul_right hgm1 m2)
  obtain ⟨hdvd1, hcop1, hcong1⟩ := crt_aux m1 m2 hm1 hm2
  have hgcomm : ((Int.gcd m2 m1 : Nat) : Int) = ((Int.gcd m1 m2 : Nat) : Int) := by
    norm_cast
    exact Int.gcd_comm m2 m1
  obtain ⟨hdvd2, hcop2, hcong2⟩ := crt_aux m2 m1 hm2 hm1
  rw [hgcomm] at hdvd2 hcop2 hcong2
  have hcondF : ¬ (r2.fmod (Int.gcd m1 m2 : Int) ≠ r1.fmod (Int.gcd m1 m2 : Int)) := by
    simp [hc]
  obtain ⟨V, hio, hvnn, hvlt, hvinv⟩ :=
    modulo.invert_eq_ok _ _ hn1pos (fmod_bounds _ _ hn1pos).1 hcop1
  obtain ⟨U, his, hunn, hult, huinv⟩ :=
    modulo.invert_eq_ok _ _ hn2pos (fmod_bounds _ _ hn2pos).1 hcop2
  have hsplit1 : (Int.gcd m1 m2 : Int) * (r1.fdiv (Int.gcd m1 m2 : Int))
      + r1.fmod (Int.gcd m1 m2 : Int) = r1 := Int.fdiv_add_fmod r1 _
  have hsplit2 : (Int.gcd m1 m2 : Int) * (r2.fdiv (Int.gcd m1 m2 : Int))
      + r2.fmod (Int.gcd m1 m2 : Int) = r2 := Int.fdiv_add_fmod r2 _
  have ha1 : (r1 - r1.fmod (Int.gcd m1 m2 : Int)).fdiv (Int.gcd m1 m2 : Int)
      = r1.fdiv (Int.gcd m1 m2 : Int) := by
    rw [show r1 - r1.fmod (Int.gcd m1 m2 : Int)
        = (Int.gcd m1 m2 : Int) * (r1.fdiv (Int.gcd m1 m2 : Int)) from by linarith,
      Int.mul_fdiv_cancel_left _ (by omega)]
  have ha2 : (r2 - r1.fmod (Int.gcd m1 m2 : Int)).fdiv (Int.gcd m1 m2 : Int)
      = r2.fdiv (Int.gcd m1 m2 : Int) := by
    rw [← hc, show r2 - r2.fmod (Int.gcd m1 m2 : Int)
        = (Int.gcd m1 m2 : Int) * (r2.fdiv (Int.gcd m1 m2 : Int)) from by linarith,
      Int.mul_fdiv_cancel_left _ (by omega)]
  have hm1G : (Int.gcd m1 m2 : Int) * (m1.fdiv (Int.gcd m1 m2 : Int)) = m1 :=
    mul_fdiv_of_dvd _ _ hgpos hgm1
  have hm2G : (Int.gcd m1 m2 : Int) * (m2.fdiv (Int.gcd m1 m2 : Int)) = m2 :=
    mul_fdiv_of_dvd _ _ hgpos hgm2
  have hn2v : (m2.fdiv (Int.gcd m1 m2 : Int)) * V ≡ 1 [ZMOD m1.fdiv (Int.gcd m1 m2 : Int)] :=
    (hcong1.mul_right V).symm.trans hvinv
  have hn1u : (m1.fdiv (Int.gcd m1 m2 : Int)) * U ≡ 1 [ZMOD m2.fdiv (Int.gcd m1 m2 : Int)] :=
    (hcong2.mul_right U).symm.trans huinv
  obtain ⟨k1, hk1⟩ := Int.modEq_iff_dvd.mp hn2v
  obtain ⟨k2, hk2⟩ := Int.modEq_iff_dvd.mp hn1u
  refine ⟨(r1.fmod (Int.gcd m1 m2 : Int) + (Int.gcd m1 m2 : Int) *
      (((r1 - r1.fmod (Int.gcd m1 m2 : Int)).fdiv (Int.gcd m1 m2 : Int))
          * (m2.fdiv (Int.gcd m1 m2 : Int)) * V +
        ((r2 - r1.fmod (Int.gcd m1 m2 : Int)).fdiv (Int.gcd m1 m2 : Int))
          * (m1.fdiv (Int.gcd m1 m2 : Int)) * U)).fmod
      ((m1 * m2).fdiv (Int.gcd m1 m2 : Int)), ?_, ?_, ?_, ?_, ?_⟩
  · -- symbolic evaluation of the happy path of `__and__`
    simp only [modulo.and]
    rw [if_neg hcondF]
    simp only [modulo.mk2_eq_ok m2 m1 hm1, modulo.mk2_eq_ok m1 m2 hm2, Except.bind,
      modulo.truediv_eq_ok (m2.fmod m1) m1 _ hm1 hgpos hdvd1 hgm1,
      modulo.truediv_eq_ok (m1.fmod m2) m2 _ hm2 hgpos hdvd2 hgm2,
      hio, his, modulo.int_]
    rw [modulo.mk2_eq_ok _ _ hMpos]
  · exact (fmod_bounds _ _ hMpos).1
  · exact (fmod_bounds _ _ hMpos).2
  · -- congruent to r1 modulo m1
    refine (Int.ModEq.of_dvd (dvd_fdiv_gcd_left m1 m2 hm1 hm2)
      (fmod_modEq _ _ (le_of_lt hMpos))).trans ?_
    rw [ha1, ha2, Int.modEq_iff_dvd]
    refine ⟨(r1.fdiv (Int.gcd m1 m2 : Int)) * k1 - (r2.fdiv (Int.gcd m1 m2 : Int)) * U, ?_⟩
    linear_combination (-1 : Int) * hsplit1
      + ((Int.gcd m1 m2 : Int) * (r1.fdiv (Int.gcd m1 m2 : Int))) * hk1
      + ((r1.fdiv (Int.gcd m1 m2 : Int)) * k1 - (r2.fdiv (Int.gcd m1 m2 : Int)) * U) * hm1G
  · -- congruent to r2 modulo m2
    refine (Int.ModEq.of_dvd (dvd_fdiv_gcd_right m1 m2 hm1 hm2)
      (fmod_modEq _ _ (le_of_lt hMpos))).trans ?_
    rw [ha1, ha2, Int.modEq_iff_dvd]
    have hsplit2c : (Int.gcd m1 m2 : Int) * (r2.fdiv (Int.gcd m1 m2 : Int))
        + r1.fmod (Int.gcd m1 m2 : Int) = r2 := by rw [← hc]; exact hsplit2
    refine ⟨(r2.fdiv (Int.gcd m1 m2 : Int)) * k2 - (r1.fdiv (Int.gcd m1 m2 : Int)) * V, ?_⟩
    linear_combination (-1 : Int) * hsplit2c
      + ((Int.gcd m1 m2 : Int) * (r2.fdiv (Int.gcd m1 m2 : Int))) * hk2
      + ((r2.fdiv (Int.gcd m1 m2 : Int)) * k2 - (r1.fdiv (Int.gcd m1 m2 : Int)) * V) * hm2G

lemma members_inter (r1 m1 r2 m2 ρ : Int) (hm1 : 0 < m1) (hm2 : 0 < m2)
    (hr1 : 0 ≤ r1) (hr1m : r1 < m1) (hr2 : 0 ≤ r2) (hr2m : r2 < m2)
    (hρ0 : 0 ≤ ρ) (hρM : ρ < (m1 * m2).fdiv (Int.gcd m1 m2 : Int))
    (h1 : ρ ≡ r1 [ZMOD m1]) (h2 : ρ ≡ r2 [ZMOD m2]) :
    modulo.members ⟨some ρ, (m1 * m2).fdiv (Int.gcd m1 m2 : Int)⟩
      = modulo.members ⟨some r1, m1⟩ ∩ modulo.members ⟨some r2, m2⟩ := by
  have hMpos : 0 < (m1 * m2).fdiv (Int.gcd m1 m2 : Int) := lt_of_le_of_lt hρ0 hρM
  ext n
  simp only [modulo.members, Set.mem_setOf_eq, Set.mem_inter_iff, Option.some.injEq]
  rw [fmod_eq_iff_modEq n ρ _ hMpos hρ0 hρM,
    fmod_eq_iff_modEq n r1 m1 hm1 hr1 hr1m,
    fmod_eq_iff_modEq n r2 m2 hm2 hr2 hr2m]
  constructor
  · intro h
    exact ⟨(Int.ModEq.of_dvd (dvd_fdiv_gcd_left m1 m2 hm1 hm2) h).trans h1,
      (Int.ModEq.of_dvd (dvd_fdiv_gcd_right m1 m2 hm1 hm2) h).trans h2⟩
  · rintro ⟨ha, hb⟩
    have hA : n ≡ ρ [ZMOD m1] := ha.trans h1.symm
    have hB : n ≡ ρ [ZMOD m2] := hb.trans h2.symm
    have hlcm : ((Int.lcm m1 m2 : Nat) : Int) ∣ ρ - n :=
      Int.lcm_dvd (Int.modEq_iff_dvd.mp hA) (Int.modEq_iff_dvd.mp hB)
    rw [Int.modEq_iff_dvd, fdiv_gcd_eq_lcm m1 m2 hm1 hm2]
    exact hlcm

lemma egcd_inv_modEq (r m : Int) (hm : 0 < m) (hr : 0 ≤ r) (hg : Int.gcd r m = 1) :
    r * ((egcd r m).2.1.fmod m) ≡ 1 [ZMOD m] := by
  obtain ⟨hg1, hbez⟩ := egcd_spec r m hr (le_of_lt hm)
  have h1 : r * ((egcd r m).2.1.fmod m) ≡ r * (egcd r m).2.1 [ZMOD m] :=
    Int.ModEq.mul_left r (fmod_modEq _ _ (le_of_lt hm))
  have h2 : r * (egcd r m).2.1 ≡ 1 [ZMOD m] := by
    rw [Int.modEq_iff_dvd]
    refine ⟨(egcd r m).2.2, ?_⟩
    rw [hg] at hbez
    push_cast at hbez
    linarith
  exact h1.trans h2

lemma fmod_eq_fmod_of_modEq (a b m : Int) (hm : 0 < m) (h : a ≡ b [ZMOD m]) :
    a.fmod m = b.fmod m := by
  rw [Int.fmod_eq_emod _ (le_of_lt hm), Int.fmod_eq_emod _ (le_of_lt hm)]
  exact h

/-- C1: CRT intersection correctness: on two element-mode instances
`(r1, m1)` and `(r2, m2)` with `g = gcd(m1, m2)`, if `r1 mod g ≠ r2 mod g`
then `a & b` returns the no-intersection sentinel `None` (not an error);
otherwise it returns an element-mode instance whose modulus is
`lcm(m1, m2)` and whose infinite member set is exactly the intersection of
the two operands' member sets, its residue being congruent to `r1` mod
`m1` and to `r2` mod `m2`. -/
theorem and_crt_correct (r1 m1 r2 m2 : Int)
    (h1 : modulo.wellFormed ⟨some r1, m1⟩) (h2 : modulo.wellFormed ⟨some r2, m2⟩) :
    (r1.fmod (Int.gcd m1 m2 : Int) ≠ r2.fmod (Int.gcd m1 m2 : Int) →
      modulo.and ⟨some r1, m1⟩ (.mcl ⟨some r2, m2⟩) = .ok none) ∧
    (r1.fmod (Int.gcd m1 m2 : Int) = r2.fmod (Int.gcd m1 m2 : Int) →
      ∃ c : modulo, modulo.and ⟨some r1, m1⟩ (.mcl ⟨some r2, m2⟩) = .ok (some c) ∧
        c.modulus = (Int.lcm m1 m2 : Int) ∧
        modulo.members c = modulo.members ⟨some r1, m1⟩ ∩ modulo.members ⟨some r2, m2⟩ ∧
        ∃ ρ : Int, c.residue = some ρ ∧ ρ ≡ r1 [ZMOD m1] ∧ ρ ≡ r2 [ZMOD m2]) := by
  obtain ⟨hm1, hr1, hr1m⟩ := h1
  obtain ⟨hm2, hr2, hr2m⟩ := h2
  constructor
  · intro hne
    exact modulo.and_incompat r1 m1 r2 m2 (fun hh => hne hh.symm)
  · intro hcc
    obtain ⟨ρ, heq, hρ0, hρM, hρ1, hρ2⟩ :=
      modulo.and_compat_spec r1 m1 r2 m2 hm1 hm2 hr1 hr1m hr2 hr2m hcc.symm
    refine ⟨⟨some ρ, (m1 * m2).fdiv (Int.gcd m1 m2 : Int)⟩, heq,
      fdiv_gcd_eq_lcm m1 m2 hm1 hm2,
      members_inter r1 m1 r2 m2 ρ hm1 hm2 hr1 hr1m hr2 hr2m hρ0 hρM hρ1 hρ2,
      ρ, rfl, hρ1, hρ2⟩

theorem and_crt_correct_witness :
    ((2 : Int).fmod (Int.gcd 3 5 : Int) ≠ (4 : Int).fmod (Int.gcd 3 5 : Int) →
      modulo.and ⟨some 2, 3⟩ (.mcl ⟨some 4, 5⟩) = .ok none) ∧
    ((2 : Int).fmod (Int.gcd 3 5 : Int) = (4 : Int).fmod (Int.gcd 3 5 : Int) →
      ∃ c : modulo, modulo.and ⟨some 2, 3⟩ (.mcl ⟨some 4, 5⟩) = .ok (some c) ∧
        c.modulus = (Int.lcm 3 5 : Int) ∧
        modulo.members c = modulo.members ⟨some 2, 3⟩ ∩ modulo.members ⟨some 4, 5⟩ ∧
        ∃ ρ : Int, c.residue = some ρ ∧ ρ ≡ 2 [ZMOD 3] ∧ ρ ≡ 4 [ZMOD 5]) :=
  and_crt_correct 2 3 4 5 (by decide) (by decide)

/-- C9: internal safety of the CRT intersection: on two element-mode
operands satisfying the compatibility precondition
`r1 mod gcd(m1,m2) = r2 mod gcd(m1,m2)`, the scaled-transform divisions
and the two modular inversions inside `__and__` always succeed: `&` never
raises on compatible element-mode operands and always returns an
instance. -/
theorem and_never_raises_on_compatible (r1 m1 r2 m2 : Int)
    (h1 : modulo.wellFormed ⟨some r1, m1⟩) (h2 : modulo.wellFormed ⟨some r2, m2⟩)
    (hc : r1.fmod (Int.gcd m1 m2 : Int) = r2.fmod (Int.gcd m1 m2 : Int)) :
    ∃ c : modulo, modulo.and ⟨some r1, m1⟩ (.mcl ⟨some r2, m2⟩) = .ok (some c) := by
  obtain ⟨hm1, hr1, hr1m⟩ := h1
  obtain ⟨hm2, hr2, hr2m⟩ := h2
  obtain ⟨ρ, heq, _, _, _, _⟩ :=
    modulo.and_compat_spec r1 m1 r2 m2 hm1 hm2 hr1 hr1m hr2 hr2m hc.symm
  exact ⟨_, heq⟩

theorem and_never_raises_on_compatible_witness :
    ∃ c : modulo, modulo.and ⟨some 23, 100⟩ (.mcl ⟨some 31, 49⟩) = .ok (some c) :=
  and_never_raises_on_compatible 23 100 31 49 (by decide) (by decide) (by decide)

/-- C2: the spec asserts that `issubset(a, b)` (which the code computes as
`a.residue mod b.modulus == b.residue`) holds exactly when the congruence
class of `a` is contained in the congruence class of `b`.  The code
contradicts its own documented subset semantics: at `a = (2, 3)`,
`b = (2, 4)` it returns `True`, yet `5` is a member of `a`'s class and not
of `b`'s, so `a`'s class is not a subset of `b`'s.  (A correct subset test
additionally requires `b.modulus ∣ a.modulus`.) -/
theorem issubset_containment_bug :
    modulo.issubset ⟨some 2, 3⟩ (.mcl ⟨some 2, 4⟩) = .ok true ∧
    ¬ (modulo.members ⟨some 2, 3⟩ ⊆ modulo.members ⟨some 2, 4⟩) ∧
    (5 : Int) ∈ modulo.members ⟨some 2, 3⟩ ∧ (5 : Int) ∉ modulo.members ⟨some 2, 4⟩ := by
  have h5in : (5 : Int) ∈ modulo.members ⟨some 2, 3⟩ := by
    show (some 2 : Option Int) = some ((5 : Int).fmod 3)
    decide
  have h5out : (5 : Int) ∉ modulo.members ⟨some 2, 4⟩ := by
    show ¬ ((some 2 : Option Int) = some ((5 : Int).fmod 4))
    decide
  exact ⟨by decide, fun hsub => h5out (hsub h5in), h5in, h5out⟩

/-- C3: exponentiation matches native modular pow: for an element-mode
instance `(r, m)` and `e ≥ 0`, `a ** e` is the element-mode instance
`(r^e mod m, m)` — in particular `e = 0` yields `1 mod m`, which is `0`
when `m = 1`; and for `e < 0` with `gcd(r, m) = 1`, `a ** e` is the
modular inverse of `a` (obtained via the extended GCD and reduced mod `m`)
raised to `abs e`, mod `m`. -/
theorem pow_matches_native_pow (r m : Int) (h : modulo.wellFormed ⟨some r, m⟩) :
    (∀ e : Int, 0 ≤ e →
      modulo.pow ⟨some r, m⟩ (.int e) none = .ok ⟨some ((r ^ e.toNat).fmod m), m⟩) ∧
    modulo.pow ⟨some r, m⟩ (.int 0) none = .ok ⟨some ((1 : Int).fmod m), m⟩ ∧
    (m = 1 → modulo.pow ⟨some r, m⟩ (.int 0) none = .ok ⟨some 0, 1⟩) ∧
    (∀ e : Int, e < 0 → Int.gcd r m = 1 →
      ∃ v : Int, 0 ≤ v ∧ v < m ∧ r * v ≡ 1 [ZMOD m] ∧
        modulo.pow ⟨some r, m⟩ (.int e) none = .ok ⟨some ((v ^ e.natAbs).fmod m), m⟩) := by
  obtain ⟨hm, hr, hrm⟩ := h
  refine ⟨fun e he => modulo.pow_nonneg_eq r m e hm he, ?_, ?_, ?_⟩
  · have h0 := modulo.pow_nonneg_eq r m 0 hm le_rfl
    simpa using h0
  · intro hm1
    subst hm1
    have h0 := modulo.pow_nonneg_eq r 1 0 (by omega) le_rfl
    simpa [Int.fmod_one] using h0
  · intro e he hg
    exact ⟨(egcd r m).2.1.fmod m, (fmod_bounds _ _ hm).1, (fmod_bounds _ _ hm).2,
      egcd_inv_modEq r m hm hr hg, modulo.pow_neg_eq r m e hm hr he hg⟩

theorem pow_matches_native_pow_witness :
    (∀ e : Int, 0 ≤ e →
      modulo.pow ⟨some 4, 7⟩ (.int e) none = .ok ⟨some (((4 : Int) ^ e.toNat).fmod 7), 7⟩) ∧
    modulo.pow ⟨some 4, 7⟩ (.int 0) none = .ok ⟨some ((1 : Int).fmod 7), 7⟩ ∧
    ((7 : Int) = 1 → modulo.pow ⟨some 4, 7⟩ (.int 0) none = .ok ⟨some 0, 1⟩) ∧
    (∀ e : Int, e < 0 → Int.gcd 4 7 = 1 →
      ∃ v : Int, 0 ≤ v ∧ v < 7 ∧ 4 * v ≡ 1 [ZMOD 7] ∧
        modulo.pow ⟨some 4, 7⟩ (.int e) none = .ok ⟨some ((v ^ e.natAbs).fmod 7), 7⟩) :=
  pow_matches_native_pow 4 7 (by decide)

/-- C5: non-invertibility errors: for an element-mode instance with
`gcd(residue, modulus) > 1`, each of `~a`, `a ** (-1)` and `a // a` fails
with the `NoInverse` error (`ValueError: congruence class has no
inverse`), and none of them returns a value. -/
theorem noninvertible_ops_fail (r m : Int) (h : modulo.wellFormed ⟨some r, m⟩)
    (hg : 1 < Int.gcd r m) :
    modulo.invert ⟨some r, m⟩ = .error (.valueError "congruence class has no inverse") ∧
    modulo.pow ⟨some r, m⟩ (.int (-1)) none
      = .error (.valueError "congruence class has no inverse") ∧
    modulo.floordiv ⟨some r, m⟩ (.mcl ⟨some r, m⟩)
      = .error (.valueError "congruence class has no inverse") := by
  obtain ⟨hm, hr, hrm⟩ := h
  have hp := modulo.pow_neg_noninv r m (-1) hm hr (by omega) hg
  exact ⟨hp, hp, modulo.floordiv_mcl_noninv r r m hm hr hg⟩

theorem noninvertible_ops_fail_witness :
    modulo.invert ⟨some 2, 4⟩ = .error (.valueError "congruence class has no inverse") ∧
    modulo.pow ⟨some 2, 4⟩ (.int (-1)) none
      = .error (.valueError "congruence class has no inverse") ∧
    modulo.floordiv ⟨some 2, 4⟩ (.mcl ⟨some 2, 4⟩)
      = .error (.valueError "congruence class has no inverse") :=
  noninvertible_ops_fail 2 4 (by decide) (by decide)

/-- C6: multiplicative inverse round-trip: for an element-mode instance
with `gcd(residue, modulus) = 1`, both `a * ~a` and `a // a` equal the
element-mode instance `(1 mod modulus, modulus)`. -/
theorem inverse_round_trip (r m : Int) (h : modulo.wellFormed ⟨some r, m⟩)
    (hg : Int.gcd r m = 1) :
    (∃ b : modulo, modulo.invert ⟨some r, m⟩ = .ok b ∧
      modulo.mul ⟨some r, m⟩ (.mcl b) = .ok ⟨some ((1 : Int).fmod m), m⟩) ∧
    modulo.floordiv ⟨some r, m⟩ (.mcl ⟨some r, m⟩) = .ok ⟨some ((1 : Int).fmod m), m⟩ := by
  obtain ⟨hm, hr, hrm⟩ := h
  obtain ⟨v, hio, hvnn, hvlt, hvinv⟩ := modulo.invert_eq_ok r m hm hr hg
  obtain ⟨hfd, hfdinv⟩ := modulo.floordiv_mcl_ok r r m hm hr hg
  constructor
  · refine ⟨⟨some v, m⟩, hio, ?_⟩
    rw [modulo.mul_mcl_eq_ok r v m hm, fmod_eq_fmod_of_modEq _ _ _ hm hvinv]
  · rw [hfd, fmod_eq_fmod_of_modEq _ _ _ hm hfdinv]

theorem inverse_round_trip_witness :
    (∃ b : modulo, modulo.invert ⟨some 4, 7⟩ = .ok b ∧
      modulo.mul ⟨some 4, 7⟩ (.mcl b) = .ok ⟨some ((1 : Int).fmod 7), 7⟩) ∧
    modulo.floordiv ⟨some 4, 7⟩ (.mcl ⟨some 4, 7⟩) = .ok ⟨some ((1 : Int).fmod 7), 7⟩ :=
  inverse_round_trip 4 7 (by decide) (by decide)

/-- C7: `len` across the two revisions: on a set-mode instance both
revisions return the modulus (they agree); on every element-mode instance
the current revision returns the modulus while the earlier revision fails
with its `ExpectedSet`-style error (`TypeError: cannot determine size of a
congruence class`), so the two implementations differ on every
element-mode input. -/
theorem len_across_revisions (x : modulo) :
    (x.residue = none → x.len = .ok x.modulus ∧ x.lenPrev = .ok x.modulus) ∧
    (∀ r : Int, x.residue = some r →
      x.len = .ok x.modulus ∧
      x.lenPrev = .error (.typeError "cannot determine size of a congruence class")) := by
  constructor
  · intro h
    exact ⟨rfl, by simp [modulo.lenPrev, h]⟩
  · intro r h
    exact ⟨rfl, by simp [modulo.lenPrev, h]⟩

theorem len_across_revisions_witness :
    ((⟨none, 7⟩ : modulo).len = .ok 7 ∧ (⟨none, 7⟩ : modulo).lenPrev = .ok 7) ∧
    ((⟨some 2, 4⟩ : modulo).len = .ok 4 ∧
      (⟨some 2, 4⟩ : modulo).lenPrev
        = .error (.typeError "cannot determine size of a congruence class")) :=
  ⟨(len_across_revisions ⟨none, 7⟩).1 rfl, (len_across_revisions ⟨some 2, 4⟩).2 2 rfl⟩

/-- C8: indexing: on a set-mode instance `x[i]` is the element-mode
instance `(i mod m, m)` (negative indices wrap); on an element-mode
instance `x[i]` is the raw integer `residue + i*modulus`, not reduced and
possibly negative; a non-integer index fails with `InvalidIndexType`
(`TypeError: index must be an integer`) in either mode. -/
theorem getitem_by_mode (x : modulo) (h : x.wellFormed) :
    (∀ i : Int, x.residue = none →
      x.getitem (.int i) = .ok (.mcl ⟨some (i.fmod x.modulus), x.modulus⟩)) ∧
    (∀ i r : Int, x.residue = some r →
      x.getitem (.int i) = .ok (.int (r + i * x.modulus))) ∧
    (∀ p : PyVal, (∀ n : Int, p ≠ .int n) →
      x.getitem p = .error (.typeError "index must be an integer")) := by
  refine ⟨?_, ?_, ?_⟩
  · intro i hres
    simp [modulo.getitem, hres, modulo.mk2_eq_ok i x.modulus h.1]
  · intro i r hres
    simp [modulo.getitem, hres]
  · intro p hp
    cases p with
    | int n => exact absurd rfl (hp n)
    | mcl c => simp [modulo.getitem]
    | other => simp [modulo.getitem]

theorem getitem_by_mode_witness :
    (⟨none, 7⟩ : modulo).getitem (.int (-2)) = .ok (.mcl ⟨some ((-2 : Int).fmod 7), 7⟩) ∧
    (⟨some 2, 7⟩ : modulo).getitem (.int (-1)) = .ok (.int (2 + (-1) * 7)) ∧
    (⟨some 2, 7⟩ : modulo).getitem .other = .error (.typeError "index must be an integer") :=
  ⟨(getitem_by_mode ⟨none, 7⟩ (by decide)).1 (-2) rfl,
   (getitem_by_mode ⟨some 2, 7⟩ (by decide)).2.1 (-1) 2 rfl,
   (getitem_by_mode ⟨some 2, 7⟩ (by decide)).2.2 .other (fun n => by simp)⟩

/-- C10: reflected addition on a set-mode instance constructs an element
rather than failing: `n + mod(m)` (dispatched to `__radd__`) returns the
element-mode instance `(n mod m, m)`; asymmetrically, `n - mod(m)`
(dispatched to `__rsub__`) fails with `ExpectedElementOrInteger`
(`TypeError: expecting a congruence class or integer`) for every integer
`n`. -/
theorem radd_constructs_rsub_fails (n m : Int) (hm : 0 < m) :
    modulo.radd ⟨none, m⟩ (.int n) = .ok ⟨some (n.fmod m), m⟩ ∧
    modulo.rsub ⟨none, m⟩ (.int n)
      = .error (.typeError "expecting a congruence class or integer") := by
  constructor
  · simp only [modulo.radd]
    exact modulo.mk2_eq_ok n m hm
  · simp [modulo.rsub]

theorem radd_constructs_rsub_fails_witness :
    modulo.radd ⟨none, 4⟩ (.int 2) = .ok ⟨some ((2 : Int).fmod 4), 4⟩ ∧
    modulo.rsub ⟨none, 4⟩ (.int 3)
      = .error (.typeError "expecting a congruence class or integer") :=
  ⟨(radd_constructs_rsub_fails 2 4 (by decide)).1, (radd_constructs_rsub_fails 3 4 (by decide)).2⟩

/-- C4: normalization invariant: constructing `(v, m)` for an integer `v`
and positive integer `m` stores `residue = v mod m` with
`0 ≤ residue < m` (floor-style modulo, so this holds for negative `v`
too) and `residue ≡ v (mod m)`; and every embedded operation that returns
an instance constructs it through this normalization, so every instance
it returns satisfies `modulus > 0` and, in element mode,
`0 ≤ residue < modulus`. -/
theorem construction_normalizes_and_preserves_wellFormed :
    (∀ v m : Int, 0 < m →
      modulo.init [PyVal.int v, PyVal.int m] = .ok ⟨some (v.fmod m), m⟩ ∧
      0 ≤ v.fmod m ∧ v.fmod m < m ∧ v.fmod m ≡ v [ZMOD m]) ∧
    (∀ (a : modulo) (b : PyVal) (c : modulo),
      (a.add b = .ok c → c.wellFormed) ∧
      (a.radd b = .ok c → c.wellFormed) ∧
      (a.sub b = .ok c → c.wellFormed) ∧
      (a.rsub b = .ok c → c.wellFormed) ∧
      (a.mul b = .ok c → c.wellFormed) ∧
      (a.rmul b = .ok c → c.wellFormed) ∧
      (a.floordiv b = .ok c → c.wellFormed) ∧
      (a.mod b = .ok c → c.wellFormed) ∧
      (a.rmod b = .ok c → c.wellFormed) ∧
      (a.truediv b = .ok c → c.wellFormed) ∧
      (a.and b = .ok (some c) → c.wellFormed) ∧
      (a.getitem b = .ok (.mcl c) → c.wellFormed) ∧
      (symbolRmul b = .ok c → c.wellFormed) ∧
      (symbolTruediv b = .ok c → c.wellFormed)) ∧
    (∀ (a : modulo) (b : PyVal) (oi : Option Int) (c : modulo),
      a.pow b oi = .ok c → c.wellFormed) ∧
    (∀ a c : modulo,
      (a.pos = .ok c → c.wellFormed) ∧
      (a.neg = .ok c → c.wellFormed) ∧
      (a.invert = .ok c → c.wellFormed)) ∧
    (∀ (a : modulo) (e : Except Err modulo) (c : modulo),
      e ∈ a.iterSet → e = .ok c → c.wellFormed) := by
  refine ⟨?_, ?_, ?_, ?_, ?_⟩
  · intro v m hm
    exact ⟨modulo.mk2_eq_ok v m hm, (fmod_bounds v m hm).1, (fmod_bounds v m hm).2,
      fmod_modEq v m (le_of_lt hm)⟩
  · intro a b c
    exact ⟨modulo.wf_of_add a b c, modulo.wf_of_radd a b c, modulo.wf_of_sub a b c,
      modulo.wf_of_rsub a b c, modulo.wf_of_mul a b c, modulo.wf_of_rmul a b c,
      modulo.wf_of_floordiv a b c, modulo.wf_of_mod a b c, modulo.wf_of_rmod a b c,
      modulo.wf_of_truediv a b c, modulo.wf_of_and a b c, modulo.wf_of_getitem a b c,
      wf_of_symbolRmul b c, wf_of_symbolTruediv b c⟩
  · intro a b oi c
    exact modulo.wf_of_pow a b oi c
  · intro a c
    exact ⟨modulo.wf_of_pos a c, modulo.wf_of_neg a c, modulo.wf_of_invert a c⟩
  · intro a e c
    exact modulo.wf_of_iterSet a e c

theorem construction_normalizes_witness :
    modulo.init [PyVal.int (-5), PyVal.int 3] = .ok ⟨some ((-5 : Int).fmod 3), 3⟩ ∧
    0 ≤ (-5 : Int).fmod 3 ∧ (-5 : Int).fmod 3 < 3 ∧ (-5 : Int).fmod 3 ≡ -5 [ZMOD 3] :=
  construction_normalizes_and_preserves_wellFormed.1 (-5) 3 (by decide)

example : modulo.add ⟨some 3, 7⟩ (.mcl ⟨some 2, 7⟩) = .ok ⟨some 5, 7⟩ := by decide
example : modulo.add ⟨some 1, 4⟩ (.int 2) = .ok ⟨some 3, 4⟩ := by decide
example : modulo.sub ⟨some 0, 7⟩ (.mcl ⟨some 1, 7⟩) = .ok ⟨some 6, 7⟩ := by decide
example : modulo.floordiv ⟨some 4, 7⟩ (.mcl ⟨some 2, 7⟩) = .ok ⟨some 2, 7⟩ := by decide
example : modulo.pow ⟨some 4, 7⟩ (.int (-1)) none = .ok ⟨some 2, 7⟩ := by decide
example : modulo.pow ⟨some 4, 7⟩ (.int 3) none = .ok ⟨some 1, 7⟩ := by decide
example : modulo.invert ⟨some 4, 6⟩ = .error (.valueError "congruence class has no inverse") := by decide
example : modulo.mod ⟨some 3, 10⟩ (.int 7) = .ok ⟨some 3, 7⟩ := by decide
example : modulo.rmod ⟨none, 11⟩ (.int 7) = .ok ⟨some 7, 11⟩ := by decide
example : modulo.truediv ⟨some 2, 10⟩ (.int 2) = .ok ⟨some 1, 5⟩ := by decide
example : modulo.and ⟨some 2, 3⟩ (.mcl ⟨some 4, 5⟩) = .ok (some ⟨some 14, 15⟩) := by decide
example : modulo.and ⟨some 2, 10⟩ (.mcl ⟨some 4, 20⟩) = .ok none := by decide
example : modulo.and ⟨some 23, 100⟩ (.mcl ⟨some 31, 49⟩) = .ok (some ⟨some 423, 4900⟩) := by decide
example : modulo.issubset ⟨some 2, 8⟩ (.mcl ⟨some 2, 4⟩) = .ok true := by decide
example : modulo.issubset ⟨some 3, 4⟩ (.mcl ⟨some 0, 2⟩) = .ok false := by decide
example : modulo.getitem ⟨none, 7⟩ (.int (-2)) = .ok (.mcl ⟨some 5, 7⟩) := by decide
example : modulo.getitem ⟨some 2, 7⟩ (.int (-1)) = .ok (.int (-5)) := by decide
